import Mathlib

/-!
Verification of the ELF header codec implemented in `src/elf/file/mod.rs`
(with its endianness helpers from `src/endian/mod.rs`).

The byte streams of `std::io` are modelled as `List Nat` values whose
elements are below 256 (`BytesWF`); a reader consumes a prefix of the list
and returns the parsed value together with the unread suffix, and a writer
appends bytes to an output list.  Fallible operations return
`Except Error _`, mirroring the crate's `Result<T, Error>`.
-/

/-- Error type of the codec (`elf::file::Error`).  `io` models an
`std::io::Error` (in this pure model the only reachable I/O failure is
end-of-stream); `parse` models `Error::Parse` with its message; `panicked`
models a Rust panic (the `_ => panic ...` arms of the endianness matches),
which is not an `Error` variant in the source but must be distinguished
from ordinary returns in the embedding. -/
inductive Error where
  | io : Error
  | parse : String → Error
  | panicked : Error
deriving DecidableEq

/-- A well-formed byte stream: every element is an actual byte value. -/
def BytesWF (l : List Nat) : Prop := ∀ b ∈ l, b < 256

instance (l : List Nat) : Decidable (BytesWF l) := by
  unfold BytesWF
  infer_instance

/-- Little-endian interpretation of a byte list as an unsigned integer. -/
def bytesToNatLE : List Nat → Nat
  | [] => 0
  | b :: bs => b + 256 * bytesToNatLE bs

/-- Big-endian interpretation of a byte list as an unsigned integer. -/
def bytesToNatBE (bs : List Nat) : Nat := bytesToNatLE bs.reverse

/-- The `w` little-endian bytes of `v` (modulo `2 ^ (8 * w)`). -/
def natToBytesLE : Nat → Nat → List Nat
  | 0, _ => []
  | w + 1, v => v % 256 :: natToBytesLE w (v / 256)

/-- The `w` big-endian bytes of `v` (modulo `2 ^ (8 * w)`). -/
def natToBytesBE (w v : Nat) : List Nat := (natToBytesLE w v).reverse

theorem natToBytesLE_length (w v : Nat) : (natToBytesLE w v).length = w := by
  induction w generalizing v with
  | zero => rfl
  | succ w ih => simp [natToBytesLE, ih]

theorem natToBytesBE_length (w v : Nat) : (natToBytesBE w v).length = w := by
  simp [natToBytesBE, natToBytesLE_length]

theorem natToBytesLE_wf (w v : Nat) : BytesWF (natToBytesLE w v) := by
  induction w generalizing v with
  | zero => intro b hb; simp [natToBytesLE] at hb
  | succ w ih =>
    intro b hb
    simp only [natToBytesLE, List.mem_cons] at hb
    rcases hb with h | h
    · subst h; exact Nat.mod_lt _ (by norm_num)
    · exact ih (v / 256) b h

theorem natToBytesBE_wf (w v : Nat) : BytesWF (natToBytesBE w v) := by
  intro b hb
  exact natToBytesLE_wf w v b (List.mem_reverse.mp hb)

theorem natToBytesLE_bytesToNatLE (bs : List Nat) (h : BytesWF bs) :
    natToBytesLE bs.length (bytesToNatLE bs) = bs := by
  induction bs with
  | nil => rfl
  | cons b bs ih =>
    have hb : b < 256 := h b (List.mem_cons_self _ _)
    have hbs : BytesWF bs := fun x hx => h x (List.mem_cons_of_mem _ hx)
    simp only [List.length_cons, natToBytesLE, bytesToNatLE]
    have hmod : (b + 256 * bytesToNatLE bs) % 256 = b := by
      rw [Nat.add_mul_mod_self_left, Nat.mod_eq_of_lt hb]
    have hdiv : (b + 256 * bytesToNatLE bs) / 256 = bytesToNatLE bs := by
      rw [Nat.add_mul_div_left _ _ (by norm_num : 0 < 256),
        Nat.div_eq_of_lt hb, Nat.zero_add]
    rw [hmod, hdiv, ih hbs]

theorem natToBytesBE_bytesToNatBE (bs : List Nat) (h : BytesWF bs) :
    natToBytesBE bs.length (bytesToNatBE bs) = bs := by
  have hrev : BytesWF bs.reverse := fun x hx => h x (List.mem_reverse.mp hx)
  have := natToBytesLE_bytesToNatLE bs.reverse hrev
  rw [List.length_reverse] at this
  simp [natToBytesBE, bytesToNatBE, this]

theorem bytesToNatLE_natToBytesLE (w v : Nat) (h : v < 2 ^ (8 * w)) :
    bytesToNatLE (natToBytesLE w v) = v := by
  induction w generalizing v with
  | zero =>
    simp only [Nat.mul_zero, pow_zero, Nat.lt_one_iff] at h
    simp [natToBytesLE, bytesToNatLE, h]
  | succ w ih =>
    have hdiv : v / 256 < 2 ^ (8 * w) := by
      rw [Nat.div_lt_iff_lt_mul (by norm_num : 0 < 256)]
      calc v < 2 ^ (8 * (w + 1)) := h
        _ = 2 ^ (8 * w) * 256 := by ring
    simp only [natToBytesLE, bytesToNatLE, ih (v / 256) hdiv]
    exact Nat.mod_add_div v 256

theorem bytesToNatBE_natToBytesBE (w v : Nat) (h : v < 2 ^ (8 * w)) :
    bytesToNatBE (natToBytesBE w v) = v := by
  simp [bytesToNatBE, natToBytesBE, bytesToNatLE_natToBytesLE w v h]

theorem bytesToNatLE_lt (bs : List Nat) (h : BytesWF bs) :
    bytesToNatLE bs < 2 ^ (8 * bs.length) := by
  induction bs with
  | nil => simp [bytesToNatLE]
  | cons b bs ih =>
    have hb : b < 256 := h b (List.mem_cons_self _ _)
    have hbs := ih fun x hx => h x (List.mem_cons_of_mem _ hx)
    have hpow : 2 ^ (8 * (b :: bs).length) = 256 * 2 ^ (8 * bs.length) := by
      simp only [List.length_cons]
      ring
    rw [hpow]
    simp only [bytesToNatLE]
    omega

theorem bytesToNatBE_lt (bs : List Nat) (h : BytesWF bs) :
    bytesToNatBE bs < 2 ^ (8 * bs.length) := by
  have hrev : BytesWF bs.reverse := fun x hx => h x (List.mem_reverse.mp hx)
  have := bytesToNatLE_lt bs.reverse hrev
  rwa [List.length_reverse] at this

/-- Model of `read_exact` into an `n`-byte buffer: take the first `n` bytes,
failing with an I/O error (end of stream) when fewer are available. -/
def readBytes (n : Nat) (input : List Nat) : Except Error (List Nat × List Nat) :=
  if n ≤ input.length then .ok (input.take n, input.drop n) else .error .io

theorem readBytes_eq_ok {n : Nat} {input bs rest : List Nat} :
    readBytes n input = .ok (bs, rest) ↔
      n ≤ input.length ∧ bs = input.take n ∧ rest = input.drop n := by
  unfold readBytes
  split
  · constructor
    · intro h
      injection h with h
      injection h with h1 h2
      exact ⟨by assumption, h1.symm, h2.symm⟩
    · rintro ⟨-, rfl, rfl⟩; rfl
  · constructor
    · intro h; cases h
    · rintro ⟨h, -, -⟩; omega

theorem readBytes_append {n : Nat} {bs : List Nat} (rest : List Nat)
    (h : bs.length = n) : readBytes n (bs ++ rest) = .ok (bs, rest) := by
  rw [readBytes_eq_ok]
  subst h
  refine ⟨by simp, ?_, ?_⟩
  · rw [List.take_left]
  · rw [List.drop_left]

namespace endian

/-- `endian::Encoding`: the byte-order argument threaded through the codec.
`Any` maps to the platform's `NativeEndian`; the model fixes it to
little-endian (the typical platform), which is sound for this development
because every multi-byte field of the header is read and written with the
order *derived from the identification*, never with `Any`. -/
inductive Encoding where
  | Little : Encoding
  | Big : Encoding
  | Any : Encoding
deriving DecidableEq

/-- The byte image a `Writer` produces for a `w`-byte unsigned value. -/
def wireBytes (w : Nat) (e : Encoding) (v : Nat) : List Nat :=
  match e with
  | .Big => natToBytesBE w v
  | _ => natToBytesLE w v

/-- Shared body of the `Reader` methods: read `w` bytes and assemble them
in this encoding's byte order. -/
def Encoding.readUInt (e : Encoding) (w : Nat) (src : List Nat) :
    Except Error (Nat × List Nat) :=
  match readBytes w src with
  | .error err => .error err
  | .ok (bs, rest) =>
    match e with
    | .Big => .ok (bytesToNatBE bs, rest)
    | _ => .ok (bytesToNatLE bs, rest)

/-- `Reader::read_u16`. -/
def Encoding.read_u16 (e : Encoding) (src : List Nat) :
    Except Error (Nat × List Nat) := e.readUInt 2 src

/-- `Reader::read_u32`. -/
def Encoding.read_u32 (e : Encoding) (src : List Nat) :
    Except Error (Nat × List Nat) := e.readUInt 4 src

/-- `Reader::read_u64`. -/
def Encoding.read_u64 (e : Encoding) (src : List Nat) :
    Except Error (Nat × List Nat) := e.readUInt 8 src

/-- Shared body of the `Writer` methods: append the `w` bytes of `v` in
this encoding's byte order (a pure sink never fails). -/
def Encoding.writeUInt (e : Encoding) (w v : Nat) (out : List Nat) : List Nat :=
  out ++ wireBytes w e v

/-- `Writer::write_u16`.  The `u16` parameter type makes the value taken
modulo `2 ^ 16`, which `natToBytesLE`/`natToBytesBE` already do. -/
def Encoding.write_u16 (e : Encoding) (v : Nat) (out : List Nat) : List Nat :=
  e.writeUInt 2 v out

/-- `Writer::write_u32`. -/
def Encoding.write_u32 (e : Encoding) (v : Nat) (out : List Nat) : List Nat :=
  e.writeUInt 4 v out

/-- `write_u64` as `byteorder` provides it (the source's `Writer` trait
reaches it through the same generic `WriteBytesExt`). -/
def Encoding.write_u64 (e : Encoding) (v : Nat) (out : List Nat) : List Nat :=
  e.writeUInt 8 v out

theorem wireBytes_length (w : Nat) (e : Encoding) (v : Nat) :
    (wireBytes w e v).length = w := by
  cases e <;> simp [wireBytes, natToBytesLE_length, natToBytesBE_length]

theorem wireBytes_wf (w : Nat) (e : Encoding) (v : Nat) :
    BytesWF (wireBytes w e v) := by
  cases e <;> simp only [wireBytes] <;>
    first
      | exact natToBytesBE_wf w v
      | exact natToBytesLE_wf w v

/-- Reading a `w`-byte integer from a well-formed stream determines the
consumed prefix: it is exactly the wire image of the value read, the value
is in range, and the unread suffix is well-formed. -/
theorem readUInt_ok_decompose {e : Encoding} {w : Nat} {src : List Nat}
    {v : Nat} {rest : List Nat} (hwf : BytesWF src)
    (h : e.readUInt w src = .ok (v, rest)) :
    src = wireBytes w e v ++ rest ∧ v < 2 ^ (8 * w) ∧ BytesWF rest := by
  unfold Encoding.readUInt at h
  cases hr : readBytes w src with
  | error err => rw [hr] at h; cases e <;> cases h
  | ok pair =>
    obtain ⟨bs, rest'⟩ := pair
    rw [hr] at h
    rw [readBytes_eq_ok] at hr
    obtain ⟨hlen, hbs, hrest⟩ := hr
    have hbslen : bs.length = w := by
      subst hbs; simp [List.length_take]; omega
    have hbswf : BytesWF bs := by
      subst hbs; exact fun x hx => hwf x (List.take_subset _ _ hx)
    have hrestwf : BytesWF rest' := by
      subst hrest; exact fun x hx => hwf x (List.drop_subset _ _ hx)
    have hsplit : src = bs ++ rest' := by
      subst hbs; subst hrest; exact (List.take_append_drop w src).symm
    cases e with
    | Little =>
      injection h with h
      injection h with h1 h2
      subst h1; subst h2
      have himg : wireBytes w .Little (bytesToNatLE bs) = bs := by
        show natToBytesLE w (bytesToNatLE bs) = bs
        rw [← hbslen]; exact natToBytesLE_bytesToNatLE bs hbswf
      refine ⟨by rw [himg]; exact hsplit, ?_, hrestwf⟩
      rw [← hbslen]; exact bytesToNatLE_lt bs hbswf
    | Big =>
      injection h with h
      injection h with h1 h2
      subst h1; subst h2
      have himg : wireBytes w .Big (bytesToNatBE bs) = bs := by
        show natToBytesBE w (bytesToNatBE bs) = bs
        rw [← hbslen]; exact natToBytesBE_bytesToNatBE bs hbswf
      refine ⟨by rw [himg]; exact hsplit, ?_, hrestwf⟩
      rw [← hbslen]; exact bytesToNatBE_lt bs hbswf
    | Any =>
      injection h with h
      injection h with h1 h2
      subst h1; subst h2
      have himg : wireBytes w .Any (bytesToNatLE bs) = bs := by
        show natToBytesLE w (bytesToNatLE bs) = bs
        rw [← hbslen]; exact natToBytesLE_bytesToNatLE bs hbswf
      refine ⟨by rw [himg]; exact hsplit, ?_, hrestwf⟩
      rw [← hbslen]; exact bytesToNatLE_lt bs hbswf

/-- Reading back the wire image of an in-range value yields that value and
leaves exactly the appended suffix. -/
theorem readUInt_wireBytes {e : Encoding} {w v : Nat} (rest : List Nat)
    (hv : v < 2 ^ (8 * w)) :
    e.readUInt w (wireBytes w e v ++ rest) = .ok (v, rest) := by
  unfold Encoding.readUInt
  rw [readBytes_append rest (wireBytes_length w e v)]
  cases e <;> simp only [wireBytes]
  · rw [bytesToNatLE_natToBytesLE w v hv]
  · rw [bytesToNatBE_natToBytesBE w v hv]
  · rw [bytesToNatLE_natToBytesLE w v hv]

end endian

/-- `Magic`: the stored 4-byte signature. -/
structure Magic where
  bytes : List Nat
deriving DecidableEq

/-- The expected signature bytes `{0x7f, b'E', b'L', b'F'}`. -/
def elfMagicBytes : List Nat := [0x7f, 0x45, 0x4c, 0x46]

/-- `Magic::is_valid`. -/
def Magic.is_valid (m : Magic) : Bool := m.bytes == elfMagicBytes

/-- `AddressFormat` (`EI_CLASS`), with `FromPrimitive`/`ToPrimitive`
derived from the `repr(u8)` discriminants 0, 1, 2. -/
inductive AddressFormat where
  | None : AddressFormat
  | ThirtyTwoBit : AddressFormat
  | SixtyFourBit : AddressFormat
deriving DecidableEq

def AddressFormat.from_u8 : Nat → Option AddressFormat
  | 0 => some .None
  | 1 => some .ThirtyTwoBit
  | 2 => some .SixtyFourBit
  | _ => none

def AddressFormat.to_u8 : AddressFormat → Nat
  | .None => 0
  | .ThirtyTwoBit => 1
  | .SixtyFourBit => 2

/-- `elf::file::Encoding` (`EI_DATA`), the data-encoding byte. -/
inductive Encoding where
  | None : Encoding
  | LittleEndian : Encoding
  | BigEndian : Encoding
deriving DecidableEq

def Encoding.from_u8 : Nat → Option Encoding
  | 0 => some .None
  | 1 => some .LittleEndian
  | 2 => some .BigEndian
  | _ => none

def Encoding.to_u8 : Encoding → Nat
  | .None => 0
  | .LittleEndian => 1
  | .BigEndian => 2

/-- `Type` (the object-file type; renamed because `Type` is reserved in
Lean), `repr(u16)` discriminants 0..4. -/
inductive ElfType where
  | None : ElfType
  | Relocatable : ElfType
  | Executable : ElfType
  | Dynamic : ElfType
  | Core : ElfType
deriving DecidableEq

def ElfType.from_u16 : Nat → Option ElfType
  | 0 => some .None
  | 1 => some .Relocatable
  | 2 => some .Executable
  | 3 => some .Dynamic
  | 4 => some .Core
  | _ => none

def ElfType.to_u16 : ElfType → Nat
  | .None => 0
  | .Relocatable => 1
  | .Executable => 2
  | .Dynamic => 3
  | .Core => 4

/-- `Architecture` (`e_machine`), the closed ISA table of the source. -/
inductive Architecture where
  | None : Architecture
  | M32 : Architecture
  | SPARC : Architecture
  | I386 : Architecture
  | M68K : Architecture
  | M88K : Architecture
  | I860 : Architecture
  | MIPS : Architecture
  | PARISC : Architecture
  | SPARC32PLUS : Architecture
  | PPC : Architecture
  | PPC64 : Architecture
  | S390 : Architecture
  | ARM : Architecture
  | SH : Architecture
  | SPARCV9 : Architecture
  | IA_64 : Architecture
  | X86_64 : Architecture
  | VAX : Architecture
deriving DecidableEq

def Architecture.from_u16 : Nat → Option Architecture
  | 0 => some .None
  | 1 => some .M32
  | 2 => some .SPARC
  | 3 => some .I386
  | 4 => some .M68K
  | 5 => some .M88K
  | 7 => some .I860
  | 8 => some .MIPS
  | 9 => some .PARISC
  | 18 => some .SPARC32PLUS
  | 20 => some .PPC
  | 21 => some .PPC64
  | 22 => some .S390
  | 40 => some .ARM
  | 42 => some .SH
  | 43 => some .SPARCV9
  | 50 => some .IA_64
  | 62 => some .X86_64
  | 75 => some .VAX
  | _ => none

def Architecture.to_u16 : Architecture → Nat
  | .None => 0
  | .M32 => 1
  | .SPARC => 2
  | .I386 => 3
  | .M68K => 4
  | .M88K => 5
  | .I860 => 7
  | .MIPS => 8
  | .PARISC => 9
  | .SPARC32PLUS => 18
  | .PPC => 20
  | .PPC64 => 21
  | .S390 => 22
  | .ARM => 40
  | .SH => 42
  | .SPARCV9 => 43
  | .IA_64 => 50
  | .X86_64 => 62
  | .VAX => 75

/-- `Version` (`e_version`), `repr(u32)` discriminants 0, 1. -/
inductive Version where
  | None : Version
  | Current : Version
deriving DecidableEq

def Version.from_u32 : Nat → Option Version
  | 0 => some .None
  | 1 => some .Current
  | _ => none

def Version.to_u32 : Version → Nat
  | .None => 0
  | .Current => 1

theorem addressFormat_to_from_u8 {b : Nat} {a : AddressFormat}
    (h : AddressFormat.from_u8 b = some a) : AddressFormat.to_u8 a = b := by
  unfold AddressFormat.from_u8 at h
  split at h <;> first | (injection h with h; subst h; rfl) | cases h

theorem encoding_to_from_u8 {b : Nat} {a : Encoding}
    (h : Encoding.from_u8 b = some a) : Encoding.to_u8 a = b := by
  unfold Encoding.from_u8 at h
  split at h <;> first | (injection h with h; subst h; rfl) | cases h

theorem elfType_to_from_u16 {b : Nat} {a : ElfType}
    (h : ElfType.from_u16 b = some a) : ElfType.to_u16 a = b := by
  unfold ElfType.from_u16 at h
  split at h <;> first | (injection h with h; subst h; rfl) | cases h

theorem architecture_to_from_u16 {b : Nat} {a : Architecture}
    (h : Architecture.from_u16 b = some a) : Architecture.to_u16 a = b := by
  unfold Architecture.from_u16 at h
  split at h <;> first | (injection h with h; subst h; rfl) | cases h

theorem Version.to_from_u32 {b : Nat} {a : Version}
    (h : Version.from_u32 b = some a) : Version.to_u32 a = b := by
  unfold Version.from_u32 at h
  split at h <;> first | (injection h with h; subst h; rfl) | cases h

theorem addressFormat_to_u8_lt (a : AddressFormat) : a.to_u8 < 256 := by
  cases a <;> simp [AddressFormat.to_u8]

theorem encoding_to_u8_lt (a : Encoding) : a.to_u8 < 256 := by
  cases a <;> simp [Encoding.to_u8]

theorem elfType_to_u16_lt (a : ElfType) : a.to_u16 < 2 ^ 16 := by
  cases a <;> simp [ElfType.to_u16]

theorem architecture_to_u16_lt (a : Architecture) : a.to_u16 < 2 ^ 16 := by
  cases a <;> simp [Architecture.to_u16]

theorem Version.to_u32_lt (a : Version) : a.to_u32 < 2 ^ 32 := by
  cases a <;> simp [Version.to_u32]

theorem addressFormat_from_to_u8 (a : AddressFormat) :
    AddressFormat.from_u8 a.to_u8 = some a := by
  cases a <;> rfl

theorem encoding_from_to_u8 (a : Encoding) :
    Encoding.from_u8 a.to_u8 = some a := by
  cases a <;> rfl

theorem elfType_from_to_u16 (a : ElfType) :
    ElfType.from_u16 a.to_u16 = some a := by
  cases a <;> rfl

theorem architecture_from_to_u16 (a : Architecture) :
    Architecture.from_u16 a.to_u16 = some a := by
  cases a <;> rfl

theorem Version.from_to_u32 (a : Version) :
    Version.from_u32 a.to_u32 = some a := by
  cases a <;> rfl

/-- `Option::ok_or`: the pattern `opt.ok_or(err)?` of the source. -/
def okOr {α : Type} (opt : Option α) (err : Error) : Except Error α :=
  match opt with
  | some a => .ok a
  | none => .error err

/-- Model of the source's `input.bytes().next().and_then(|r| r.ok())
.and_then(f).ok_or(Error::Parse(msg))`: one byte is pulled from the
iterator and mapped through `f`; end-of-stream and an unmapped byte both
collapse to the same parse error. -/
def readMapped {α : Type} (f : Nat → Option α) (msg : String)
    (input : List Nat) : Except Error (α × List Nat) :=
  match input with
  | [] => .error (.parse msg)
  | b :: rest =>
    match f b with
    | some a => .ok (a, rest)
    | none => .error (.parse msg)

/-- `Magic::from_io`: read exactly 4 bytes and validate them.  The
byte-order argument is ignored (bound `_` in the source). -/
def Magic.from_io (_order : endian.Encoding) (input : List Nat) :
    Except Error (Magic × List Nat) :=
  match readBytes 4 input with
  | .error e => .error e
  | .ok (bs, rest) =>
    let magic : Magic := ⟨bs⟩
    if magic.is_valid then .ok (magic, rest)
    else .error (.parse "Invalid ELF header, incorrect magic values")

/-- `Magic::to_io`: write the 4 stored bytes; the pure sink cannot fail,
and the returned count is the number of bytes written. -/
def Magic.to_io (m : Magic) (_order : endian.Encoding) (output : List Nat) :
    List Nat × Nat :=
  (output ++ m.bytes, m.bytes.length)

/-- `IdentRemaining = [u8; Identification::len() - Magic::len() - 2]`,
i.e. `16 - 4 - 2 = 10` bytes. -/
def identRemainingLen : Nat := 16 - 4 - 2

/-- `Identification`: magic, `EI_CLASS`, `EI_DATA` and the remaining
(opaque) bytes of `e_ident`. -/
structure Identification where
  magic : Magic
  cls : AddressFormat
  data : Encoding
  remaining : List Nat
deriving DecidableEq

/-- `Identification::from_io`. -/
def Identification.from_io (order : endian.Encoding) (input : List Nat) :
    Except Error (Identification × List Nat) :=
  match Magic.from_io order input with
  | .error e => .error e
  | .ok (magic, r0) =>
    match readMapped AddressFormat.from_u8 "Could not read class type" r0 with
    | .error e => .error e
    | .ok (cls, r1) =>
      if cls = AddressFormat.None then
        .error (.parse "Invalid address format: None")
      else
        match readMapped Encoding.from_u8 "Could not read encoding type" r1 with
        | .error e => .error e
        | .ok (data, r2) =>
          if data = Encoding.None then
            .error (.parse "Invalid encoding: None")
          else
            match readBytes identRemainingLen r2 with
            | .error e => .error e
            | .ok (remaining, r3) => .ok (⟨magic, cls, data, remaining⟩, r3)

/-- `Identification::to_io`: magic, the two wire bytes, then the stored
remaining bytes.  (`to_u8` on these fieldless enums always succeeds, so
the source's `ok_or` branches are dead and the model is pure.) -/
def Identification.to_io (i : Identification) (order : endian.Encoding)
    (output : List Nat) : List Nat × Nat :=
  let (o1, w1) := i.magic.to_io order output
  let o2 := o1 ++ [i.cls.to_u8]
  let o3 := o2 ++ [i.data.to_u8]
  let o4 := o3 ++ i.remaining
  (o4, w1 + 1 + 1 + i.remaining.length)

/-- `Header`: the fixed ELF header.  `entry`, `phoff` and `shoff` are
up-sized to `u64` (here `Nat`) and serialize according to the address
format, as in the source. -/
structure Header where
  ident : Identification
  e_type : ElfType
  machine : Architecture
  version : Version
  entry : Nat
  phoff : Nat
  shoff : Nat
  flags : Nat
  ehsize : Nat
  phentsize : Nat
  phnum : Nat
  shentsize : Nat
  shnum : Nat
  shstrndx : Nat
deriving DecidableEq

/-- The endianness derived from `ident.data` in `Header::from_io` /
`Header::to_io`; the `_ => panic` arm is modelled by `Error.panicked`. -/
def derivedEndian (data : Encoding) : Except Error endian.Encoding :=
  match data with
  | .LittleEndian => .ok .Little
  | .BigEndian => .ok .Big
  | .None => .error .panicked

/-- `architecture_aware_read`: read 32 or 64 bits according to the
identification's class (the 32-bit value is widened, a no-op on `Nat`). -/
def architecture_aware_read (ident : Identification)
    (en : endian.Encoding) (input : List Nat) :
    Except Error (Nat × List Nat) :=
  match ident.cls with
  | .None => .error (.parse "Could not read version")
  | .ThirtyTwoBit => en.read_u32 input
  | .SixtyFourBit => en.read_u64 input

/-- `architecture_aware_write`: write the value as 32 or 64 bits according
to the identification's class, returning the byte count.  The
`value as u32` narrowing is the truncation `natToBytesLE`/`natToBytesBE`
perform by construction. -/
def architecture_aware_write (ident : Identification) (value : Nat)
    (en : endian.Encoding) (output : List Nat) :
    Except Error (List Nat × Nat) :=
  match ident.cls with
  | .None => .error (.parse "Could not write version")
  | .ThirtyTwoBit => .ok (en.write_u32 value output, 4)
  | .SixtyFourBit => .ok (en.write_u64 value output, 8)

/-- `Header::from_io`. -/
def Header.from_io (order : endian.Encoding) (input : List Nat) :
    Except Error (Header × List Nat) := do
  let (ident, r0) ← Identification.from_io order input
  let en ← derivedEndian ident.data
  let (tv, r1) ← en.read_u16 r0
  let e_type ← okOr (ElfType.from_u16 tv) (.parse "Could not read type")
  let (mv, r2) ← en.read_u16 r1
  let machine ← okOr (Architecture.from_u16 mv) (.parse "Could not read machine")
  let (vv, r3) ← en.read_u32 r2
  let version ← okOr (Version.from_u32 vv) (.parse "Could not read version")
  let (entry, r4) ← architecture_aware_read ident en r3
  let (phoff, r5) ← architecture_aware_read ident en r4
  let (shoff, r6) ← architecture_aware_read ident en r5
  let (flags, r7) ← en.read_u32 r6
  let (ehsize, r8) ← en.read_u16 r7
  let (phentsize, r9) ← en.read_u16 r8
  let (phnum, r10) ← en.read_u16 r9
  let (shentsize, r11) ← en.read_u16 r10
  let (shnum, r12) ← en.read_u16 r11
  let (shstrndx, r13) ← en.read_u16 r12
  .ok (⟨ident, e_type, machine, version, entry, phoff, shoff, flags,
    ehsize, phentsize, phnum, shentsize, shnum, shstrndx⟩, r13)

/-- `Header::to_io`: identification, the three enum wire codes, the three
address-sized fields, flags and the six 16-bit fields; the returned count
adds the constant `2+2+4+4+2+2+2+2+2+2 = 24` to the counted writes, as the
source does. -/
def Header.to_io (h : Header) (order : endian.Encoding) (output : List Nat) :
    Except Error (List Nat × Nat) := do
  let (o1, written) := h.ident.to_io order output
  let en ← derivedEndian h.ident.data
  let o2 := en.write_u16 h.e_type.to_u16 o1
  let o3 := en.write_u16 h.machine.to_u16 o2
  let o4 := en.write_u32 h.version.to_u32 o3
  let (o5, w1) ← architecture_aware_write h.ident h.entry en o4
  let (o6, w2) ← architecture_aware_write h.ident h.phoff en o5
  let (o7, w3) ← architecture_aware_write h.ident h.shoff en o6
  let o8 := en.write_u32 h.flags o7
  let o9 := en.write_u16 h.ehsize o8
  let o10 := en.write_u16 h.phentsize o9
  let o11 := en.write_u16 h.phnum o10
  let o12 := en.write_u16 h.shentsize o11
  let o13 := en.write_u16 h.shnum o12
  let o14 := en.write_u16 h.shstrndx o13
  .ok (o14, written + w1 + w2 + w3 + (2 + 2 + 4 + 4 + 2 + 2 + 2 + 2 + 2 + 2))

/-- `File`: the header plus every remaining byte of the stream. -/
structure File where
  header : Header
  remaining : List Nat
deriving DecidableEq

/-- `File::from_io`: decode the header, then `read_to_end` the tail. -/
def File.from_io (order : endian.Encoding) (input : List Nat) :
    Except Error File := do
  let (header, rest) ← Header.from_io order input
  .ok ⟨header, rest⟩

/-- `File::to_io`: write the header, then the tail verbatim; the count is
the sum of both writes. -/
def File.to_io (f : File) (order : endian.Encoding) (output : List Nat) :
    Except Error (List Nat × Nat) := do
  let (o1, w) ← Header.to_io f.header order output
  .ok (o1 ++ f.remaining, w + f.remaining.length)

deriving instance DecidableEq for Except

/-- The byte image `Identification::to_io` emits for a value. -/
def Identification.bytes (i : Identification) : List Nat :=
  i.magic.bytes ++ [i.cls.to_u8] ++ [i.data.to_u8] ++ i.remaining

/-- Width in bytes of an address-sized field under this class (the class
`None` never reaches a read/write, see `architecture_aware_read`). -/
def addrSize : AddressFormat → Nat
  | .None => 0
  | .ThirtyTwoBit => 4
  | .SixtyFourBit => 8

/-- The byte-order value `Header::from_io`/`Header::to_io` derive for a
non-`None` data encoding. -/
def Encoding.toEndian : Encoding → endian.Encoding
  | .LittleEndian => .Little
  | .BigEndian => .Big
  | .None => .Any

/-- The byte image `Header::to_io` emits for a value. -/
def Header.bytes (h : Header) : List Nat :=
  let en := h.ident.data.toEndian
  let w := addrSize h.ident.cls
  h.ident.bytes ++
    endian.wireBytes 2 en h.e_type.to_u16 ++
    endian.wireBytes 2 en h.machine.to_u16 ++
    endian.wireBytes 4 en h.version.to_u32 ++
    endian.wireBytes w en h.entry ++
    endian.wireBytes w en h.phoff ++
    endian.wireBytes w en h.shoff ++
    endian.wireBytes 4 en h.flags ++
    endian.wireBytes 2 en h.ehsize ++
    endian.wireBytes 2 en h.phentsize ++
    endian.wireBytes 2 en h.phnum ++
    endian.wireBytes 2 en h.shentsize ++
    endian.wireBytes 2 en h.shnum ++
    endian.wireBytes 2 en h.shstrndx

/-- Invariants of every `Identification` built by a successful decode. -/
def Identification.WF (i : Identification) : Prop :=
  i.magic.bytes = elfMagicBytes ∧
  i.cls ≠ AddressFormat.None ∧
  i.data ≠ Encoding.None ∧
  i.remaining.length = identRemainingLen ∧
  BytesWF i.remaining

instance (i : Identification) : Decidable i.WF := by
  unfold Identification.WF BytesWF
  infer_instance

/-- Invariants of every `Header` built by a successful decode: the
identification is well formed and every numeric field fits its wire
width. -/
def Header.WF (h : Header) : Prop :=
  h.ident.WF ∧
  h.entry < 2 ^ (8 * addrSize h.ident.cls) ∧
  h.phoff < 2 ^ (8 * addrSize h.ident.cls) ∧
  h.shoff < 2 ^ (8 * addrSize h.ident.cls) ∧
  h.flags < 2 ^ 32 ∧
  h.ehsize < 2 ^ 16 ∧
  h.phentsize < 2 ^ 16 ∧
  h.phnum < 2 ^ 16 ∧
  h.shentsize < 2 ^ 16 ∧
  h.shnum < 2 ^ 16 ∧
  h.shstrndx < 2 ^ 16

instance (h : Header) : Decidable h.WF := by
  unfold Header.WF
  infer_instance

theorem except_bind_ok {ε α β : Type} {x : Except ε α} {f : α → Except ε β}
    {b : β} : (x >>= f) = .ok b ↔ ∃ a, x = .ok a ∧ f a = .ok b := by
  cases x with
  | error e =>
    simp only [Bind.bind, Except.bind]
    constructor
    · intro h; cases h
    · rintro ⟨a, h, -⟩; cases h
  | ok a =>
    simp only [Bind.bind, Except.bind]
    constructor
    · intro h; exact ⟨a, rfl, h⟩
    · rintro ⟨a', ha, hf⟩
      injection ha with ha
      subst ha; exact hf

theorem okOr_ok {α : Type} {o : Option α} {e : Error} {a : α}
    (h : okOr o e = .ok a) : o = some a := by
  unfold okOr at h
  cases o with
  | none => cases h
  | some a' => injection h with h; rw [h]

theorem readMapped_ok {α : Type} {f : Nat → Option α} {msg : String}
    {input : List Nat} {a : α} {rest : List Nat}
    (h : readMapped f msg input = .ok (a, rest)) :
    ∃ b, input = b :: rest ∧ f b = some a := by
  unfold readMapped at h
  split at h
  · cases h
  · rename_i b r
    split at h
    · rename_i a' hf
      injection h with h
      injection h with h1 h2
      subst h1; subst h2
      exact ⟨b, rfl, hf⟩
    · cases h

theorem derivedEndian_eq {d : Encoding} {en : endian.Encoding}
    (h : derivedEndian d = .ok en) : en = d.toEndian ∧ d ≠ Encoding.None := by
  cases d with
  | None => cases h
  | LittleEndian =>
    injection h with h
    exact ⟨h.symm, by intro hc; cases hc⟩
  | BigEndian =>
    injection h with h
    exact ⟨h.symm, by intro hc; cases hc⟩

theorem derivedEndian_of_ne {d : Encoding} (h : d ≠ Encoding.None) :
    derivedEndian d = .ok d.toEndian := by
  cases d with
  | None => exact absurd rfl h
  | LittleEndian => rfl
  | BigEndian => rfl

theorem magic_from_io_ok {order : endian.Encoding} {input : List Nat}
    {m : Magic} {rest : List Nat} (hwf : BytesWF input)
    (h : Magic.from_io order input = .ok (m, rest)) :
    m.bytes = elfMagicBytes ∧ input = m.bytes ++ rest ∧ BytesWF rest := by
  unfold Magic.from_io at h
  cases hr : readBytes 4 input with
  | error e => rw [hr] at h; cases h
  | ok pair =>
    obtain ⟨bs, rest'⟩ := pair
    rw [hr] at h
    rw [readBytes_eq_ok] at hr
    obtain ⟨hlen, hbs, hrest⟩ := hr
    simp only at h
    split at h
    · rename_i hvalid
      injection h with h
      injection h with h1 h2
      have hmb : m.bytes = elfMagicBytes := by
        rw [← h1]
        simpa [Magic.is_valid] using hvalid
      refine ⟨hmb, ?_, ?_⟩
      · rw [← h1, ← h2, hbs, hrest]
        exact (List.take_append_drop 4 input).symm
      · rw [← h2, hrest]
        exact fun x hx => hwf x (List.drop_subset _ _ hx)
    · cases h

theorem ident_from_io_ok {order : endian.Encoding}
    {input : List Nat} {i : Identification} {rest : List Nat}
    (hwf : BytesWF input)
    (h : Identification.from_io order input = .ok (i, rest)) :
    input = i.bytes ++ rest ∧ i.WF ∧ BytesWF rest := by
  unfold Identification.from_io at h
  cases hm : Magic.from_io order input with
  | error e => rw [hm] at h; cases h
  | ok pm =>
    obtain ⟨magic, r0⟩ := pm
    rw [hm] at h
    obtain ⟨hmb, hsplit0, hwf0⟩ := magic_from_io_ok hwf hm
    simp only at h
    cases hc : readMapped AddressFormat.from_u8 "Could not read class type" r0 with
    | error e => rw [hc] at h; cases h
    | ok pc =>
      obtain ⟨cls, r1⟩ := pc
      rw [hc] at h
      obtain ⟨cb, hsplit1, hcb⟩ := readMapped_ok hc
      have hwf1 : BytesWF r1 := by
        intro x hx
        exact hwf0 x (by rw [hsplit1]; exact List.mem_cons_of_mem _ hx)
      simp only at h
      split at h
      · cases h
      · rename_i hclsne
        cases hd : readMapped Encoding.from_u8 "Could not read encoding type" r1 with
        | error e => rw [hd] at h; cases h
        | ok pd =>
          obtain ⟨data, r2⟩ := pd
          rw [hd] at h
          obtain ⟨db, hsplit2, hdb⟩ := readMapped_ok hd
          have hwf2 : BytesWF r2 := by
            intro x hx
            exact hwf1 x (by rw [hsplit2]; exact List.mem_cons_of_mem _ hx)
          simp only at h
          split at h
          · cases h
          · rename_i hdatane
            cases hr : readBytes identRemainingLen r2 with
            | error e => rw [hr] at h; cases h
            | ok pr =>
              obtain ⟨remaining, r3⟩ := pr
              rw [hr] at h
              injection h with h
              injection h with h1 h2
              rw [readBytes_eq_ok] at hr
              obtain ⟨hlen, hrem, hr3⟩ := hr
              have hremlen : remaining.length = identRemainingLen := by
                rw [hrem, List.length_take]; omega
              have hremwf : BytesWF remaining := by
                rw [hrem]
                exact fun x hx => hwf2 x (List.take_subset _ _ hx)
              have hwf3 : BytesWF r3 := by
                rw [hr3]
                exact fun x hx => hwf2 x (List.drop_subset _ _ hx)
              have hsplit3 : r2 = remaining ++ r3 := by
                rw [hrem, hr3]
                exact (List.take_append_drop identRemainingLen r2).symm
              refine ⟨?_, ?_, by rw [← h2]; exact hwf3⟩
              · rw [← h1, ← h2, Identification.bytes]
                simp only
                rw [hsplit0, hsplit1, hsplit2, hsplit3, hmb,
                  addressFormat_to_from_u8 hcb, encoding_to_from_u8 hdb]
                simp
              · rw [← h1]
                exact ⟨hmb, hclsne, hdatane, hremlen, hremwf⟩

theorem ident_to_io_eq {i : Identification}
    (order : endian.Encoding) (output : List Nat) (hwf : i.WF) :
    i.to_io order output = (output ++ i.bytes, 16) := by
  obtain ⟨hmb, -, -, hlen, -⟩ := hwf
  unfold Identification.to_io Magic.to_io Identification.bytes
  simp only
  rw [Prod.mk.injEq]
  refine ⟨by simp, ?_⟩
  rw [hmb, hlen]
  rfl

theorem ident_bytes_length {i : Identification} (hwf : i.WF) :
    i.bytes.length = 16 := by
  obtain ⟨hmb, -, -, hlen, -⟩ := hwf
  simp [Identification.bytes, hmb, hlen, elfMagicBytes, identRemainingLen]

theorem Identification.bytes_wf {i : Identification} (hwf : i.WF) :
    BytesWF i.bytes := by
  obtain ⟨hmb, -, -, -, hrem⟩ := hwf
  intro x hx
  simp only [Identification.bytes, List.append_assoc, List.mem_append,
    List.mem_cons, List.mem_singleton] at hx
  rcases hx with hx | hx | hx | hx
  · rw [hmb] at hx
    simp only [elfMagicBytes, List.mem_cons] at hx
    rcases hx with rfl | rfl | rfl | rfl | hx
    · norm_num
    · norm_num
    · norm_num
    · norm_num
    · simp at hx
  · have hx2 : x = i.cls.to_u8 := by simpa using hx
    rw [hx2]
    exact addressFormat_to_u8_lt i.cls
  · have hx2 : x = i.data.to_u8 := by simpa using hx
    rw [hx2]
    exact encoding_to_u8_lt i.data
  · exact hrem x hx

theorem architecture_aware_read_ok {ident : Identification}
    {en : endian.Encoding} {input : List Nat} {v : Nat} {rest : List Nat}
    (hwf : BytesWF input)
    (h : architecture_aware_read ident en input = .ok (v, rest)) :
    input = endian.wireBytes (addrSize ident.cls) en v ++ rest ∧
      v < 2 ^ (8 * addrSize ident.cls) ∧ BytesWF rest := by
  unfold architecture_aware_read at h
  cases hc : ident.cls with
  | None => rw [hc] at h; cases h
  | ThirtyTwoBit =>
    rw [hc] at h
    have := endian.readUInt_ok_decompose hwf h
    simpa [addrSize] using this
  | SixtyFourBit =>
    rw [hc] at h
    have := endian.readUInt_ok_decompose hwf h
    simpa [addrSize] using this

theorem architecture_aware_write_eq {ident : Identification} {value : Nat}
    {en : endian.Encoding} {output : List Nat}
    (hcls : ident.cls ≠ AddressFormat.None) :
    architecture_aware_write ident value en output =
      .ok (output ++ endian.wireBytes (addrSize ident.cls) en value,
        addrSize ident.cls) := by
  unfold architecture_aware_write
  cases hc : ident.cls with
  | None => exact absurd hc hcls
  | ThirtyTwoBit => rfl
  | SixtyFourBit => rfl

/-- Every successful `Header::from_io` consumed exactly the byte image
that `Header::to_io` would emit for the decoded value, and the decoded
value satisfies the decode invariants. -/
theorem header_from_io_ok {order : endian.Encoding} {input : List Nat}
    {h : Header} {rest : List Nat} (hwf : BytesWF input)
    (H : Header.from_io order input = .ok (h, rest)) :
    input = h.bytes ++ rest ∧ h.WF ∧ BytesWF rest := by
  unfold Header.from_io at H
  simp only [except_bind_ok] at H
  obtain ⟨⟨ident, r0⟩, hident, H⟩ := H
  obtain ⟨en, hen, H⟩ := H
  obtain ⟨⟨tv, r1⟩, htv, H⟩ := H
  obtain ⟨e_type, htype, H⟩ := H
  obtain ⟨⟨mv, r2⟩, hmv, H⟩ := H
  obtain ⟨machine, hmachine, H⟩ := H
  obtain ⟨⟨vv, r3⟩, hvv, H⟩ := H
  obtain ⟨version, hversion, H⟩ := H
  obtain ⟨⟨entry, r4⟩, hentry, H⟩ := H
  obtain ⟨⟨phoff, r5⟩, hphoff, H⟩ := H
  obtain ⟨⟨shoff, r6⟩, hshoff, H⟩ := H
  obtain ⟨⟨flags, r7⟩, hflags, H⟩ := H
  obtain ⟨⟨ehsize, r8⟩, hehsize, H⟩ := H
  obtain ⟨⟨phentsize, r9⟩, hphentsize, H⟩ := H
  obtain ⟨⟨phnum, r10⟩, hphnum, H⟩ := H
  obtain ⟨⟨shentsize, r11⟩, hshentsize, H⟩ := H
  obtain ⟨⟨shnum, r12⟩, hshnum, H⟩ := H
  obtain ⟨⟨shstrndx, r13⟩, hshstrndx, H⟩ := H
  injection H with H
  injection H with h1 h2
  obtain ⟨hsplit0, hWF0, hwf0⟩ := ident_from_io_ok hwf hident
  obtain ⟨hen_eq, hdata_ne⟩ := derivedEndian_eq hen
  have htv' : en.readUInt 2 r0 = .ok (tv, r1) := htv
  obtain ⟨hsplit1, htv_lt, hwf1⟩ := endian.readUInt_ok_decompose hwf0 htv'
  have hmv' : en.readUInt 2 r1 = .ok (mv, r2) := hmv
  obtain ⟨hsplit2, hmv_lt, hwf2⟩ := endian.readUInt_ok_decompose hwf1 hmv'
  have hvv' : en.readUInt 4 r2 = .ok (vv, r3) := hvv
  obtain ⟨hsplit3, hvv_lt, hwf3⟩ := endian.readUInt_ok_decompose hwf2 hvv'
  obtain ⟨hsplit4, hentry_lt, hwf4⟩ := architecture_aware_read_ok hwf3 hentry
  obtain ⟨hsplit5, hphoff_lt, hwf5⟩ := architecture_aware_read_ok hwf4 hphoff
  obtain ⟨hsplit6, hshoff_lt, hwf6⟩ := architecture_aware_read_ok hwf5 hshoff
  have hflags' : en.readUInt 4 r6 = .ok (flags, r7) := hflags
  obtain ⟨hsplit7, hflags_lt, hwf7⟩ := endian.readUInt_ok_decompose hwf6 hflags'
  have hehsize' : en.readUInt 2 r7 = .ok (ehsize, r8) := hehsize
  obtain ⟨hsplit8, hehsize_lt, hwf8⟩ := endian.readUInt_ok_decompose hwf7 hehsize'
  have hphentsize' : en.readUInt 2 r8 = .ok (phentsize, r9) := hphentsize
  obtain ⟨hsplit9, hphentsize_lt, hwf9⟩ :=
    endian.readUInt_ok_decompose hwf8 hphentsize'
  have hphnum' : en.readUInt 2 r9 = .ok (phnum, r10) := hphnum
  obtain ⟨hsplit10, hphnum_lt, hwf10⟩ :=
    endian.readUInt_ok_decompose hwf9 hphnum'
  have hshentsize' : en.readUInt 2 r10 = .ok (shentsize, r11) := hshentsize
  obtain ⟨hsplit11, hshentsize_lt, hwf11⟩ :=
    endian.readUInt_ok_decompose hwf10 hshentsize'
  have hshnum' : en.readUInt 2 r11 = .ok (shnum, r12) := hshnum
  obtain ⟨hsplit12, hshnum_lt, hwf12⟩ :=
    endian.readUInt_ok_decompose hwf11 hshnum'
  have hshstrndx' : en.readUInt 2 r12 = .ok (shstrndx, r13) := hshstrndx
  obtain ⟨hsplit13, hshstrndx_lt, hwf13⟩ :=
    endian.readUInt_ok_decompose hwf12 hshstrndx'
  refine ⟨?_, ?_, by rw [← h2]; exact hwf13⟩
  · rw [← h1, ← h2, Header.bytes]
    simp only
    rw [elfType_to_from_u16 (okOr_ok htype),
      architecture_to_from_u16 (okOr_ok hmachine),
      Version.to_from_u32 (okOr_ok hversion), ← hen_eq]
    rw [hsplit0, hsplit1, hsplit2, hsplit3, hsplit4, hsplit5, hsplit6,
      hsplit7, hsplit8, hsplit9, hsplit10, hsplit11, hsplit12, hsplit13]
    simp [List.append_assoc]
  · rw [← h1]
    exact ⟨hWF0, hentry_lt, hphoff_lt, hshoff_lt, hflags_lt, hehsize_lt,
      hphentsize_lt, hphnum_lt, hshentsize_lt, hshnum_lt, hshstrndx_lt⟩

theorem except_ok_bind {ε α β : Type} (a : α) (f : α → Except ε β) :
    (Except.ok (ε := ε) a >>= f) = f a := rfl

/-- `Header::to_io` on a well-formed header succeeds, appends exactly the
byte image, and reports `16 + 3·(4 or 8) + 24` written bytes. -/
theorem header_to_io_eq {h : Header} (order : endian.Encoding)
    (output : List Nat) (hWF : h.WF) :
    h.to_io order output =
      .ok (output ++ h.bytes, 40 + 3 * addrSize h.ident.cls) := by
  obtain ⟨hiWF, -⟩ := hWF
  have hclsne : h.ident.cls ≠ AddressFormat.None := hiWF.2.1
  have hdatane : h.ident.data ≠ Encoding.None := hiWF.2.2.1
  unfold Header.to_io
  rw [ident_to_io_eq order output hiWF]
  simp only [derivedEndian_of_ne hdatane, except_ok_bind]
  rw [architecture_aware_write_eq hclsne]
  simp only [except_ok_bind]
  rw [architecture_aware_write_eq hclsne]
  simp only [except_ok_bind]
  rw [architecture_aware_write_eq hclsne]
  simp only [except_ok_bind]
  simp only [Except.ok.injEq, Prod.mk.injEq]
  constructor
  · simp [Header.bytes, endian.Encoding.write_u16, endian.Encoding.write_u32,
      endian.Encoding.writeUInt, List.append_assoc]
  · omega

theorem header_bytes_length {h : Header} (hWF : h.WF) :
    h.bytes.length = 40 + 3 * addrSize h.ident.cls := by
  simp only [Header.bytes, List.length_append,
    ident_bytes_length hWF.1, endian.wireBytes_length]
  omega

theorem Magic.from_io_magic (order : endian.Encoding) (rest : List Nat) :
    Magic.from_io order (elfMagicBytes ++ rest) = .ok (⟨elfMagicBytes⟩, rest) := by
  unfold Magic.from_io
  rw [readBytes_append rest (by rfl)]
  simp [Magic.is_valid]

theorem readMapped_cons {α : Type} {f : Nat → Option α} {b : Nat} {a : α}
    (msg : String) (rest : List Nat) (hf : f b = some a) :
    readMapped f msg (b :: rest) = .ok (a, rest) := by
  have hred : readMapped f msg (b :: rest) =
      (match f b with
        | some x => Except.ok (x, rest)
        | none => Except.error (Error.parse msg)) := rfl
  rw [hred, hf]

/-- Decoding the byte image of a well-formed `Identification` recovers the
value and leaves the appended suffix unread. -/
theorem ident_from_io_bytes {i : Identification}
    (order : endian.Encoding) (extra : List Nat) (hWF : i.WF) :
    Identification.from_io order (i.bytes ++ extra) = .ok (i, extra) := by
  obtain ⟨hmb, hclsne, hdatane, hremlen, -⟩ := hWF
  have hshape : i.bytes ++ extra =
      elfMagicBytes ++ (i.cls.to_u8 :: (i.data.to_u8 :: (i.remaining ++ extra))) := by
    simp [Identification.bytes, hmb, List.append_assoc]
  unfold Identification.from_io
  rw [hshape, Magic.from_io_magic]
  simp only [readMapped_cons _ _ (addressFormat_from_to_u8 i.cls),
    readMapped_cons _ _ (encoding_from_to_u8 i.data),
    if_neg hclsne, if_neg hdatane,
    readBytes_append extra hremlen]
  rw [← hmb]

theorem architecture_aware_read_bytes {ident : Identification} {v : Nat}
    (en : endian.Encoding) (rest : List Nat)
    (hcls : ident.cls ≠ AddressFormat.None)
    (hv : v < 2 ^ (8 * addrSize ident.cls)) :
    architecture_aware_read ident en
      (endian.wireBytes (addrSize ident.cls) en v ++ rest) = .ok (v, rest) := by
  unfold architecture_aware_read
  cases hc : ident.cls with
  | None => exact absurd hc hcls
  | ThirtyTwoBit =>
    rw [hc] at hv
    exact endian.readUInt_wireBytes rest hv
  | SixtyFourBit =>
    rw [hc] at hv
    exact endian.readUInt_wireBytes rest hv

/-- Decoding the byte image of a well-formed `Header` recovers the value
field for field and leaves the appended suffix unread. -/
theorem header_from_io_bytes {h : Header} (order : endian.Encoding)
    (extra : List Nat) (hWF : h.WF) :
    Header.from_io order (h.bytes ++ extra) = .ok (h, extra) := by
  obtain ⟨hiWF, he1, he2, he3, hfl, hg1, hg2, hg3, hg4, hg5, hg6⟩ := hWF
  have hclsne : h.ident.cls ≠ AddressFormat.None := hiWF.2.1
  have hdatane : h.ident.data ≠ Encoding.None := hiWF.2.2.1
  have hstream : h.bytes ++ extra = h.ident.bytes ++
      (endian.wireBytes 2 h.ident.data.toEndian h.e_type.to_u16 ++
      (endian.wireBytes 2 h.ident.data.toEndian h.machine.to_u16 ++
      (endian.wireBytes 4 h.ident.data.toEndian h.version.to_u32 ++
      (endian.wireBytes (addrSize h.ident.cls) h.ident.data.toEndian h.entry ++
      (endian.wireBytes (addrSize h.ident.cls) h.ident.data.toEndian h.phoff ++
      (endian.wireBytes (addrSize h.ident.cls) h.ident.data.toEndian h.shoff ++
      (endian.wireBytes 4 h.ident.data.toEndian h.flags ++
      (endian.wireBytes 2 h.ident.data.toEndian h.ehsize ++
      (endian.wireBytes 2 h.ident.data.toEndian h.phentsize ++
      (endian.wireBytes 2 h.ident.data.toEndian h.phnum ++
      (endian.wireBytes 2 h.ident.data.toEndian h.shentsize ++
      (endian.wireBytes 2 h.ident.data.toEndian h.shnum ++
      (endian.wireBytes 2 h.ident.data.toEndian h.shstrndx ++
        extra))))))))))))) := by
    simp [Header.bytes, List.append_assoc]
  unfold Header.from_io
  rw [hstream]
  simp only [except_bind_ok]
  refine ⟨(h.ident, _), ident_from_io_bytes order _ hiWF, ?_⟩
  refine ⟨h.ident.data.toEndian, derivedEndian_of_ne hdatane, ?_⟩
  refine ⟨(h.e_type.to_u16, _),
    endian.readUInt_wireBytes _ (elfType_to_u16_lt h.e_type), ?_⟩
  refine ⟨h.e_type, by rw [elfType_from_to_u16]; rfl, ?_⟩
  refine ⟨(h.machine.to_u16, _),
    endian.readUInt_wireBytes _ (architecture_to_u16_lt h.machine), ?_⟩
  refine ⟨h.machine, by rw [architecture_from_to_u16]; rfl, ?_⟩
  refine ⟨(h.version.to_u32, _),
    endian.readUInt_wireBytes _ (Version.to_u32_lt h.version), ?_⟩
  refine ⟨h.version, by rw [Version.from_to_u32]; rfl, ?_⟩
  refine ⟨(h.entry, _),
    architecture_aware_read_bytes _ _ hclsne he1, ?_⟩
  refine ⟨(h.phoff, _),
    architecture_aware_read_bytes _ _ hclsne he2, ?_⟩
  refine ⟨(h.shoff, _),
    architecture_aware_read_bytes _ _ hclsne he3, ?_⟩
  refine ⟨(h.flags, _), endian.readUInt_wireBytes _ hfl, ?_⟩
  refine ⟨(h.ehsize, _), endian.readUInt_wireBytes _ hg1, ?_⟩
  refine ⟨(h.phentsize, _), endian.readUInt_wireBytes _ hg2, ?_⟩
  refine ⟨(h.phnum, _), endian.readUInt_wireBytes _ hg3, ?_⟩
  refine ⟨(h.shentsize, _), endian.readUInt_wireBytes _ hg4, ?_⟩
  refine ⟨(h.shnum, _), endian.readUInt_wireBytes _ hg5, ?_⟩
  refine ⟨(h.shstrndx, _), endian.readUInt_wireBytes _ hg6, ?_⟩
  rfl

theorem readBytes_error {n : Nat} {input : List Nat} {e : Error}
    (h : readBytes n input = .error e) : e = .io := by
  unfold readBytes at h
  split at h
  · cases h
  · injection h with h
    exact h.symm

theorem readBytes_short {n : Nat} {input : List Nat}
    (h : input.length < n) : readBytes n input = .error .io := by
  unfold readBytes
  rw [if_neg (by omega)]

theorem readMapped_none {α : Type} {f : Nat → Option α} {b : Nat}
    (msg : String) (rest : List Nat) (hf : f b = none) :
    readMapped f msg (b :: rest) = .error (.parse msg) := by
  have hred : readMapped f msg (b :: rest) =
      (match f b with
        | some x => Except.ok (x, rest)
        | none => Except.error (Error.parse msg)) := rfl
  rw [hred, hf]

theorem readMapped_error {α : Type} {f : Nat → Option α} {msg : String}
    {input : List Nat} {e : Error}
    (h : readMapped f msg input = .error e) : e = .parse msg := by
  unfold readMapped at h
  split at h
  · injection h with h
    exact h.symm
  · split at h
    · cases h
    · injection h with h
      exact h.symm

theorem endian.readUInt_error {e : endian.Encoding} {w : Nat}
    {src : List Nat} {err : Error}
    (h : e.readUInt w src = .error err) : err = .io := by
  unfold endian.Encoding.readUInt at h
  cases hr : readBytes w src with
  | error e' =>
    rw [hr] at h
    injection h with h
    rw [← h]
    exact readBytes_error hr
  | ok pair =>
    obtain ⟨bs, rest⟩ := pair
    rw [hr] at h
    cases e <;> cases h

theorem magic_from_io_error {order : endian.Encoding} {input : List Nat}
    {e : Error} (h : Magic.from_io order input = .error e) :
    e = .io ∨ e = .parse "Invalid ELF header, incorrect magic values" := by
  unfold Magic.from_io at h
  cases hr : readBytes 4 input with
  | error e' =>
    rw [hr] at h
    injection h with h
    rw [← h]
    exact Or.inl (readBytes_error hr)
  | ok pair =>
    obtain ⟨bs, rest⟩ := pair
    rw [hr] at h
    simp only at h
    split at h
    · cases h
    · injection h with h
      exact Or.inr h.symm

theorem ident_from_io_error {order : endian.Encoding}
    {input : List Nat} {e : Error}
    (h : Identification.from_io order input = .error e) :
    e ≠ .panicked := by
  unfold Identification.from_io at h
  cases hm : Magic.from_io order input with
  | error e' =>
    rw [hm] at h
    injection h with h
    subst h
    rcases magic_from_io_error hm with rfl | rfl <;> intro hc <;> cases hc
  | ok pm =>
    obtain ⟨magic, r0⟩ := pm
    rw [hm] at h
    simp only at h
    cases hc : readMapped AddressFormat.from_u8 "Could not read class type" r0 with
    | error e' =>
      rw [hc] at h
      injection h with h
      subst h
      rw [readMapped_error hc]
      intro hx; cases hx
    | ok pc =>
      obtain ⟨cls, r1⟩ := pc
      rw [hc] at h
      simp only at h
      split at h
      · injection h with h
        subst h
        intro hx; cases hx
      · cases hd : readMapped Encoding.from_u8 "Could not read encoding type" r1 with
        | error e' =>
          rw [hd] at h
          injection h with h
          subst h
          rw [readMapped_error hd]
          intro hx; cases hx
        | ok pd =>
          obtain ⟨data, r2⟩ := pd
          rw [hd] at h
          simp only at h
          split at h
          · injection h with h
            subst h
            intro hx; cases hx
          · cases hr : readBytes identRemainingLen r2 with
            | error e' =>
              rw [hr] at h
              injection h with h
              subst h
              rw [readBytes_error hr]
              intro hx; cases hx
            | ok pr =>
              obtain ⟨remaining, r3⟩ := pr
              rw [hr] at h
              cases h

theorem Version.from_u32_none {v : Nat} (h : 1 < v) :
    Version.from_u32 v = none := by
  match v, h with
  | n + 2, _ => rfl

/-- A 55-byte sample stream: valid magic, class 1 (32-bit), data 1
(little-endian), zero padding, all-zero scalar fields and a 3-byte tail. -/
def exInput : List Nat :=
  [0x7f, 0x45, 0x4c, 0x46, 1, 1, 0, 0, 0, 0, 0, 0, 0, 0, 0, 0,
   0, 0, 0, 0, 0, 0, 0, 0,
   0, 0, 0, 0, 0, 0, 0, 0, 0, 0, 0, 0,
   0, 0, 0, 0, 0, 0, 0, 0, 0, 0, 0, 0, 0, 0, 0, 0,
   9, 9, 9]

/-- The header decoded from `exInput`. -/
def exHeader : Header :=
  ⟨⟨⟨elfMagicBytes⟩, .ThirtyTwoBit, .LittleEndian, [0, 0, 0, 0, 0, 0, 0, 0, 0, 0]⟩,
    .None, .None, .None, 0, 0, 0, 0, 0, 0, 0, 0, 0, 0⟩

/-- The file decoded from `exInput`. -/
def exFile : File := ⟨exHeader, [9, 9, 9]⟩

/-- A 67-byte sample stream: class 2 (64-bit), data 2 (big-endian),
executable for x86-64, version 1, nonzero offsets and a 3-byte tail. -/
def exInput64 : List Nat :=
  [0x7f, 0x45, 0x4c, 0x46, 2, 2, 0, 0, 0, 0, 0, 0, 0, 0, 0, 0,
   0, 2, 0, 62, 0, 0, 0, 1,
   0, 0, 0, 0, 0, 0, 0, 5,
   0, 0, 0, 0, 0, 0, 0, 6,
   0, 0, 0, 0, 0, 0, 0, 7,
   0, 0, 0, 9,
   0, 1, 0, 2, 0, 3, 0, 4, 0, 5, 0, 6,
   1, 2, 3]

/-- The header decoded from `exInput64`. -/
def exHeader64 : Header :=
  ⟨⟨⟨elfMagicBytes⟩, .SixtyFourBit, .BigEndian, [0, 0, 0, 0, 0, 0, 0, 0, 0, 0]⟩,
    .Executable, .X86_64, .Current, 5, 6, 7, 9, 1, 2, 3, 4, 5, 6⟩

/-- The 64 header bytes of `exInput64`. -/
def exBytes64 : List Nat := exInput64.take 64

/-- C1: a `File` decoded by `File::from_io` from an `N`-byte input is
written back by `File::to_io` (same encoding argument) as exactly those
`N` bytes — byte-identical output and byte count `N`, tail included. -/
theorem c1_file_round_trip (order : endian.Encoding) (input : List Nat)
    (f : File) (hwf : BytesWF input)
    (hdec : File.from_io order input = .ok f) :
    File.to_io f order [] = .ok (input, input.length) := by
  unfold File.from_io at hdec
  simp only [except_bind_ok] at hdec
  obtain ⟨⟨hh, rest⟩, hH, hf⟩ := hdec
  injection hf with hf
  obtain ⟨hsplit, hWF, -⟩ := header_from_io_ok hwf hH
  subst hf
  unfold File.to_io
  simp only [except_bind_ok]
  refine ⟨([] ++ hh.bytes, 40 + 3 * addrSize hh.ident.cls),
    header_to_io_eq order [] hWF, ?_⟩
  rw [hsplit]
  simp only [List.nil_append, Except.ok.injEq, Prod.mk.injEq,
    List.length_append, header_bytes_length hWF]

/-- C1 witness: the concrete 55-byte stream `exInput` decodes to `exFile`
and re-encodes to exactly the same 55 bytes. -/
theorem c1_witness :
    File.to_io exFile endian.Encoding.Any [] = .ok (exInput, exInput.length) :=
  c1_file_round_trip endian.Encoding.Any exInput exFile (by decide) (by decide)

/-- C2: a header obtained from `Header::from_io` survives the
encode-then-decode round trip field for field; this holds for every
class/byte-order combination a decode can produce, in particular for
(32-bit, little-endian) and (64-bit, big-endian). -/
theorem c2_header_decode_encode (order : endian.Encoding) (input : List Nat)
    (h : Header) (rest out : List Nat) (n : Nat) (hwf : BytesWF input)
    (hdec : Header.from_io order input = .ok (h, rest))
    (henc : Header.to_io h order [] = .ok (out, n)) :
    Header.from_io order out = .ok (h, []) := by
  obtain ⟨-, hWF, -⟩ := header_from_io_ok hwf hdec
  rw [header_to_io_eq order [] hWF] at henc
  injection henc with henc
  injection henc with h1 h2
  rw [← h1, List.nil_append]
  have := header_from_io_bytes order [] hWF
  rwa [List.append_nil] at this

/-- C2 witness: the 64-bit big-endian header of `exInput64` re-encodes to
its 64 header bytes and decodes back to the same value. -/
theorem c2_witness :
    Header.from_io endian.Encoding.Big exBytes64 = .ok (exHeader64, []) :=
  c2_header_decode_encode endian.Encoding.Big exInput64 exHeader64 [1, 2, 3]
    exBytes64 64 (by decide) (by decide) (by decide)

/-- C3: for a decoded header, the byte count `Header::to_io` returns is
exactly what `Header::from_io` consumed: 16 identification bytes plus 24
scalar-field bytes plus three address-sized fields of 4 bytes (32-bit
class) or 8 bytes (64-bit class) each. -/
theorem c3_header_encoded_size (order : endian.Encoding) (input : List Nat)
    (h : Header) (rest out : List Nat) (n : Nat) (hwf : BytesWF input)
    (hdec : Header.from_io order input = .ok (h, rest))
    (henc : Header.to_io h order [] = .ok (out, n)) :
    input.length = n + rest.length ∧
    n = 16 + 24 + 3 * addrSize h.ident.cls ∧
    (h.ident.cls = AddressFormat.ThirtyTwoBit → n = 16 + 24 + 3 * 4) ∧
    (h.ident.cls = AddressFormat.SixtyFourBit → n = 16 + 24 + 3 * 8) := by
  obtain ⟨hsplit, hWF, -⟩ := header_from_io_ok hwf hdec
  rw [header_to_io_eq order [] hWF] at henc
  injection henc with henc
  injection henc with h1 h2
  refine ⟨?_, by omega, ?_, ?_⟩
  · rw [hsplit, List.length_append, header_bytes_length hWF]
    omega
  · intro hc
    rw [← h2, hc]
    decide
  · intro hc
    rw [← h2, hc]
    decide

/-- C3 witness: decoding the 55-byte 32-bit stream `exInput` consumes 52
bytes and `Header::to_io` reports 52 = 16 + 24 + 12 written bytes. -/
theorem c3_witness :
    exInput.length = 52 + ([9, 9, 9] : List Nat).length ∧
    52 = 16 + 24 + 3 * addrSize exHeader.ident.cls ∧
    (exHeader.ident.cls = AddressFormat.ThirtyTwoBit → 52 = 16 + 24 + 3 * 4) ∧
    (exHeader.ident.cls = AddressFormat.SixtyFourBit → 52 = 16 + 24 + 3 * 8) :=
  c3_header_encoded_size endian.Encoding.Any exInput exHeader [9, 9, 9]
    (exInput.take 52) 52 (by decide) (by decide) (by decide)

/-- C4 counterexample: on the empty input (whose first 4 bytes trivially
differ from the magic) `Magic::from_io` fails with the end-of-stream I/O
error, not with a parse error as the claim states. -/
theorem c4_counterexample :
    Magic.from_io endian.Encoding.Any [] = .error Error.io ∧
    ¬∃ s, Magic.from_io endian.Encoding.Any [] = .error (Error.parse s) := by
  refine ⟨rfl, ?_⟩
  rintro ⟨s, hs⟩
  have h0 : (Except.error Error.io : Except Error (Magic × List Nat)) =
      .error (Error.parse s) := hs
  injection h0 with h0
  cases h0

/-- C4 amended: for every input whose first 4 bytes differ from
`{0x7F,'E','L','F'}`, `Magic::from_io` fails — with the "invalid magic"
parse error when at least 4 bytes are available, and with the
end-of-stream I/O error when the input is shorter than 4 bytes (including
empty and single-byte inputs). -/
theorem c4_magic_validation (order : endian.Encoding) (input : List Nat)
    (hne : input.take 4 ≠ elfMagicBytes) :
    Magic.from_io order input =
      .error (if 4 ≤ input.length
        then Error.parse "Invalid ELF header, incorrect magic values"
        else Error.io) := by
  unfold Magic.from_io
  by_cases hlen : 4 ≤ input.length
  · rw [if_pos hlen]
    have hrb : readBytes 4 input = .ok (input.take 4, input.drop 4) := by
      unfold readBytes
      rw [if_pos hlen]
    rw [hrb]
    simp [Magic.is_valid, hne]
  · rw [if_neg hlen]
    have hrb : readBytes 4 input = .error .io := by
      unfold readBytes
      rw [if_neg hlen]
    rw [hrb]

/-- C4 witness: a 4-byte input of zeros is rejected with the parse error. -/
theorem c4_witness :
    Magic.from_io endian.Encoding.Any [0, 0, 0, 0] =
      .error (Error.parse "Invalid ELF header, incorrect magic values") :=
  c4_magic_validation endian.Encoding.Any [0, 0, 0, 0] (by decide)

/-- C5: during `Identification::from_io`, a class byte outside {1,2}
(including 0) makes the decode fail with a parse error identifying the
address class (the source's "Invalid address format"/"Could not read
class type" messages), and a data byte outside {1,2} likewise fails with
the byte-order parse error; no out-of-range code is accepted. -/
theorem c5_ident_rejects_unknown_codes (order : endian.Encoding)
    (c d : Nat) (rest : List Nat) :
    (c ≠ 1 ∧ c ≠ 2 →
      Identification.from_io order (elfMagicBytes ++ c :: d :: rest) =
        .error (.parse (if c = 0 then "Invalid address format: None"
          else "Could not read class type"))) ∧
    ((c = 1 ∨ c = 2) → d ≠ 1 ∧ d ≠ 2 →
      Identification.from_io order (elfMagicBytes ++ c :: d :: rest) =
        .error (.parse (if d = 0 then "Invalid encoding: None"
          else "Could not read encoding type"))) := by
  constructor
  · rintro ⟨hc1, hc2⟩
    unfold Identification.from_io
    rw [Magic.from_io_magic]
    rcases c with _ | _ | _ | n
    · simp [readMapped_cons _ _ (rfl : AddressFormat.from_u8 0 = some .None)]
    · exact absurd rfl hc1
    · exact absurd rfl hc2
    · simp [readMapped_none _ _ (rfl : AddressFormat.from_u8 (n + 3) = none)]
  · rintro hcv ⟨hd1, hd2⟩
    unfold Identification.from_io
    rw [Magic.from_io_magic]
    rcases hcv with rfl | rfl
    · rcases d with _ | _ | _ | m
      · simp [readMapped_cons _ _
          (rfl : AddressFormat.from_u8 1 = some .ThirtyTwoBit),
          readMapped_cons _ _ (rfl : Encoding.from_u8 0 = some .None)]
      · exact absurd rfl hd1
      · exact absurd rfl hd2
      · simp [readMapped_cons _ _
          (rfl : AddressFormat.from_u8 1 = some .ThirtyTwoBit),
          readMapped_none _ _ (rfl : Encoding.from_u8 (m + 3) = none)]
    · rcases d with _ | _ | _ | m
      · simp [readMapped_cons _ _
          (rfl : AddressFormat.from_u8 2 = some .SixtyFourBit),
          readMapped_cons _ _ (rfl : Encoding.from_u8 0 = some .None)]
      · exact absurd rfl hd1
      · exact absurd rfl hd2
      · simp [readMapped_cons _ _
          (rfl : AddressFormat.from_u8 2 = some .SixtyFourBit),
          readMapped_none _ _ (rfl : Encoding.from_u8 (m + 3) = none)]

/-- C5 witness: class byte 0 is rejected as an invalid address class, and
with a valid class byte 1 a data byte 3 is rejected as an unknown byte
order. -/
theorem c5_witness :
    Identification.from_io endian.Encoding.Any
        (elfMagicBytes ++ 0 :: 1 :: []) =
      .error (.parse "Invalid address format: None") ∧
    Identification.from_io endian.Encoding.Any
        (elfMagicBytes ++ 1 :: 3 :: []) =
      .error (.parse "Could not read encoding type") := by
  constructor
  · exact (c5_ident_rejects_unknown_codes endian.Encoding.Any 0 1 []).1
      (by decide)
  · exact (c5_ident_rejects_unknown_codes endian.Encoding.Any 1 3 []).2
      (Or.inl rfl) (by decide)

theorem except_error_bind {ε α β : Type} (e : ε) (f : α → Except ε β) :
    (Except.error (α := α) e >>= f) = .error e := rfl

/-- C6 counterexample: `exInput` carries the version wire value 0, which
maps to `Version::None`, yet `Header::from_io` succeeds (yielding the
`None` variant) instead of failing as the claim states. -/
theorem c6_counterexample :
    Header.from_io endian.Encoding.Any exInput = .ok (exHeader, [9, 9, 9]) ∧
    exHeader.version = Version.None ∧
    Version.from_u32 0 = some Version.None := by
  refine ⟨by decide, rfl, rfl⟩

/-- A 52-byte 32-bit little-endian header stream whose version field
carries the wire value `v` and whose other scalar fields are zero. -/
def versionProbe (v : Nat) : List Nat :=
  [0x7f, 0x45, 0x4c, 0x46, 1, 1, 0, 0, 0, 0, 0, 0, 0, 0, 0, 0,
   0, 0, 0, 0] ++ natToBytesLE 4 v ++
  [0, 0, 0, 0, 0, 0, 0, 0, 0, 0, 0, 0, 0, 0, 0, 0,
   0, 0, 0, 0, 0, 0, 0, 0, 0, 0, 0, 0]

/-- C6 amended: `Header::from_io` validates the 32-bit version field only
against the domain of `Version::from_u32`: it fails (with the "Could not
read version" parse error) exactly for wire values outside {0, 1}, while
the wire value 0 — the `None` variant — is accepted. -/
theorem c6_version_validation (order : endian.Encoding) (v : Nat)
    (hv : v < 2 ^ 32) :
    (1 < v → Header.from_io order (versionProbe v) =
      .error (.parse "Could not read version")) ∧
    (v = 0 → Header.from_io order (versionProbe v) = .ok (exHeader, []) ∧
      exHeader.version = Version.None) := by
  constructor
  · intro hval
    have hshape : versionProbe v = exHeader.ident.bytes ++
        (endian.wireBytes 2 endian.Encoding.Little 0 ++
        (endian.wireBytes 2 endian.Encoding.Little 0 ++
        (endian.wireBytes 4 endian.Encoding.Little v ++
        [0, 0, 0, 0, 0, 0, 0, 0, 0, 0, 0, 0, 0, 0, 0, 0,
         0, 0, 0, 0, 0, 0, 0, 0, 0, 0, 0, 0]))) := rfl
    unfold Header.from_io
    rw [hshape, ident_from_io_bytes order _ (by decide)]
    simp only [except_ok_bind]
    rw [show derivedEndian exHeader.ident.data = .ok endian.Encoding.Little
      from rfl]
    simp only [except_ok_bind, endian.Encoding.read_u16,
      endian.Encoding.read_u32]
    rw [endian.readUInt_wireBytes _ (show (0 : Nat) < 2 ^ (8 * 2) by norm_num)]
    simp only [except_ok_bind]
    rw [show okOr (ElfType.from_u16 0) (.parse "Could not read type") =
      .ok ElfType.None from rfl]
    simp only [except_ok_bind]
    rw [endian.readUInt_wireBytes _ (show (0 : Nat) < 2 ^ (8 * 2) by norm_num)]
    simp only [except_ok_bind]
    rw [show okOr (Architecture.from_u16 0) (.parse "Could not read machine") =
      .ok Architecture.None from rfl]
    simp only [except_ok_bind]
    rw [endian.readUInt_wireBytes _ (show v < 2 ^ (8 * 4) from hv)]
    simp only [except_ok_bind]
    rw [show okOr (Version.from_u32 v) (.parse "Could not read version") =
      .error (.parse "Could not read version") from by
        rw [Version.from_u32_none hval]; rfl]
    simp only [except_error_bind]
  · intro hv0
    subst hv0
    have h0 : Header.from_io order (versionProbe 0) =
        Header.from_io endian.Encoding.Any (versionProbe 0) := rfl
    rw [h0]
    exact ⟨by decide, rfl⟩

/-- C6 witness: the wire value 5 is rejected with the version parse
error. -/
theorem c6_witness :
    Header.from_io endian.Encoding.Any (versionProbe 5) =
      .error (.parse "Could not read version") :=
  (c6_version_validation endian.Encoding.Any 5 (by norm_num)).1 (by norm_num)

/-- C7 counterexample: a 16-byte identification block decodes with all 16
bytes consumed and a padding region of 10 bytes — not 9 as the claim
states (4 magic + 1 class + 1 data + 9 would only cover 15 bytes). -/
theorem c7_counterexample :
    Identification.from_io endian.Encoding.Any
        [0x7f, 0x45, 0x4c, 0x46, 1, 1, 6, 7, 8, 9, 10, 11, 12, 13, 14, 15] =
      .ok (⟨⟨elfMagicBytes⟩, .ThirtyTwoBit, .LittleEndian,
        [6, 7, 8, 9, 10, 11, 12, 13, 14, 15]⟩, []) ∧
    identRemainingLen = 10 ∧ identRemainingLen ≠ 9 := by
  refine ⟨by decide, rfl, by decide⟩

/-- C7 amended: after the 4 magic bytes and the class/data bytes,
`Identification::from_io` reads the remaining 10 bytes (16 − 4 − 2)
verbatim into the padding region without validation, consuming 16 bytes
total, and `Identification::to_io` writes the same padding bytes back
unchanged, writing exactly 16 bytes. -/
theorem c7_ident_padding (order : endian.Encoding) (c d : Nat)
    (pad rest : List Nat) (hc : c = 1 ∨ c = 2) (hd : d = 1 ∨ d = 2)
    (hlen : pad.length = 10) (hpad : BytesWF pad) :
    ∃ i : Identification,
      Identification.from_io order (elfMagicBytes ++ c :: d :: (pad ++ rest)) =
        .ok (i, rest) ∧
      i.remaining = pad ∧
      i.to_io order [] = (elfMagicBytes ++ c :: d :: pad, 16) := by
  rcases hc with rfl | rfl <;> rcases hd with rfl | rfl
  · refine ⟨⟨⟨elfMagicBytes⟩, .ThirtyTwoBit, .LittleEndian, pad⟩, ?_, rfl, ?_⟩
    · have hsh : elfMagicBytes ++ 1 :: 1 :: (pad ++ rest) =
          Identification.bytes ⟨⟨elfMagicBytes⟩, .ThirtyTwoBit, .LittleEndian, pad⟩ ++ rest := by
        simp [Identification.bytes, AddressFormat.to_u8, Encoding.to_u8]
      rw [hsh]
      exact ident_from_io_bytes order rest
        ⟨rfl, by simp, by simp, hlen, hpad⟩
    · rw [ident_to_io_eq order []
        ⟨rfl, by simp, by simp, hlen, hpad⟩]
      simp [Identification.bytes, AddressFormat.to_u8, Encoding.to_u8]
  · refine ⟨⟨⟨elfMagicBytes⟩, .ThirtyTwoBit, .BigEndian, pad⟩, ?_, rfl, ?_⟩
    · have hsh : elfMagicBytes ++ 1 :: 2 :: (pad ++ rest) =
          Identification.bytes ⟨⟨elfMagicBytes⟩, .ThirtyTwoBit, .BigEndian, pad⟩ ++ rest := by
        simp [Identification.bytes, AddressFormat.to_u8, Encoding.to_u8]
      rw [hsh]
      exact ident_from_io_bytes order rest
        ⟨rfl, by simp, by simp, hlen, hpad⟩
    · rw [ident_to_io_eq order []
        ⟨rfl, by simp, by simp, hlen, hpad⟩]
      simp [Identification.bytes, AddressFormat.to_u8, Encoding.to_u8]
  · refine ⟨⟨⟨elfMagicBytes⟩, .SixtyFourBit, .LittleEndian, pad⟩, ?_, rfl, ?_⟩
    · have hsh : elfMagicBytes ++ 2 :: 1 :: (pad ++ rest) =
          Identification.bytes ⟨⟨elfMagicBytes⟩, .SixtyFourBit, .LittleEndian, pad⟩ ++ rest := by
        simp [Identification.bytes, AddressFormat.to_u8, Encoding.to_u8]
      rw [hsh]
      exact ident_from_io_bytes order rest
        ⟨rfl, by simp, by simp, hlen, hpad⟩
    · rw [ident_to_io_eq order []
        ⟨rfl, by simp, by simp, hlen, hpad⟩]
      simp [Identification.bytes, AddressFormat.to_u8, Encoding.to_u8]
  · refine ⟨⟨⟨elfMagicBytes⟩, .SixtyFourBit, .BigEndian, pad⟩, ?_, rfl, ?_⟩
    · have hsh : elfMagicBytes ++ 2 :: 2 :: (pad ++ rest) =
          Identification.bytes ⟨⟨elfMagicBytes⟩, .SixtyFourBit, .BigEndian, pad⟩ ++ rest := by
        simp [Identification.bytes, AddressFormat.to_u8, Encoding.to_u8]
      rw [hsh]
      exact ident_from_io_bytes order rest
        ⟨rfl, by simp, by simp, hlen, hpad⟩
    · rw [ident_to_io_eq order []
        ⟨rfl, by simp, by simp, hlen, hpad⟩]
      simp [Identification.bytes, AddressFormat.to_u8, Encoding.to_u8]

/-- C7 witness: the padding bytes 20..29 are kept verbatim and the block
re-encodes to the same 16 bytes. -/
theorem c7_witness :
    ∃ i : Identification,
      Identification.from_io endian.Encoding.Any
          (elfMagicBytes ++ 1 :: 2 ::
            ([20, 21, 22, 23, 24, 25, 26, 27, 28, 29] ++ [7, 7])) =
        .ok (i, [7, 7]) ∧
      i.remaining = [20, 21, 22, 23, 24, 25, 26, 27, 28, 29] ∧
      i.to_io endian.Encoding.Any [] =
        (elfMagicBytes ++ 1 :: 2 :: [20, 21, 22, 23, 24, 25, 26, 27, 28, 29],
          16) :=
  c7_ident_padding endian.Encoding.Any 1 2
    [20, 21, 22, 23, 24, 25, 26, 27, 28, 29] [7, 7]
    (Or.inl rfl) (Or.inr rfl) (by decide) (by decide)

/-- C8 counterexample: the 4-byte stream holding exactly a valid magic
ends mid-identification, yet `Header::from_io` reports the parse error
"Could not read class type" — not an end-of-stream I/O error as the claim
states. -/
theorem c8_counterexample :
    Header.from_io endian.Encoding.Any [0x7f, 0x45, 0x4c, 0x46] =
      .error (Error.parse "Could not read class type") := by
  decide

/-- C8 amended: any stream shorter than 16 bytes makes `Header::from_io`
fail — never panic and never return a value — but the error kind is mixed:
end-of-stream before the 4 magic bytes complete yields the end-of-stream
I/O error; end-of-stream exactly at the class byte yields the parse error
"Could not read class type"; end-of-stream at the data byte (after a valid
class byte) yields the parse error "Could not read encoding type" (those
two reads go through `Iterator::next`/`ok_or`); and a valid magic, class
and data followed by a truncated padding region fails with the
end-of-stream I/O error again. -/
theorem c8_short_input (order : endian.Encoding) (input : List Nat)
    (hwf : BytesWF input) (hshort : input.length < 16) :
    (∃ e, Header.from_io order input = .error e ∧ e ≠ Error.panicked) ∧
    (input.length < 4 → Header.from_io order input = .error Error.io) ∧
    (input = elfMagicBytes →
      Header.from_io order input =
        .error (.parse "Could not read class type")) ∧
    (∀ c, input = elfMagicBytes ++ [c] → (c = 1 ∨ c = 2) →
      Header.from_io order input =
        .error (.parse "Could not read encoding type")) ∧
    (∀ c d pad, input = elfMagicBytes ++ c :: d :: pad →
      (c = 1 ∨ c = 2) → (d = 1 ∨ d = 2) →
      Header.from_io order input = .error Error.io) := by
  refine ⟨?_, ?_, ?_, ?_, ?_⟩
  · cases hi : Identification.from_io order input with
    | ok pi =>
      obtain ⟨i, rest⟩ := pi
      obtain ⟨hsplit, hiWF, -⟩ := ident_from_io_ok hwf hi
      have : input.length = 16 + rest.length := by
        rw [hsplit, List.length_append, ident_bytes_length hiWF]
      omega
    | error e =>
      refine ⟨e, ?_, ident_from_io_error hi⟩
      unfold Header.from_io
      rw [hi]
      rfl
  · intro hlen4
    have hm : Magic.from_io order input = .error .io := by
      unfold Magic.from_io
      rw [readBytes_short hlen4]
    have hid : Identification.from_io order input = .error .io := by
      unfold Identification.from_io
      rw [hm]
    unfold Header.from_io
    rw [hid]
    rfl
  · intro heq
    subst heq
    have h0 : Header.from_io order elfMagicBytes =
        Header.from_io endian.Encoding.Any elfMagicBytes := rfl
    rw [h0]
    decide
  · intro c heq hc
    subst heq
    rcases hc with rfl | rfl
    · have h0 : Header.from_io order (elfMagicBytes ++ [1]) =
          Header.from_io endian.Encoding.Any (elfMagicBytes ++ [1]) := rfl
      rw [h0]
      decide
    · have h0 : Header.from_io order (elfMagicBytes ++ [2]) =
          Header.from_io endian.Encoding.Any (elfMagicBytes ++ [2]) := rfl
      rw [h0]
      decide
  · rintro c d pad rfl hc hd
    have hpadlen : pad.length < 10 := by
      simp only [List.length_append, List.length_cons, elfMagicBytes,
        List.length_nil] at hshort
      omega
    have hident : Identification.from_io order
        (elfMagicBytes ++ c :: d :: pad) = .error .io := by
      unfold Identification.from_io
      rw [show elfMagicBytes ++ c :: d :: pad =
        elfMagicBytes ++ (c :: d :: pad) from rfl, Magic.from_io_magic]
      rcases hc with rfl | rfl <;> rcases hd with rfl | rfl
      · simp [readMapped_cons _ _
          (rfl : AddressFormat.from_u8 1 = some .ThirtyTwoBit),
          readMapped_cons _ _ (rfl : Encoding.from_u8 1 = some .LittleEndian),
          identRemainingLen, readBytes_short hpadlen]
      · simp [readMapped_cons _ _
          (rfl : AddressFormat.from_u8 1 = some .ThirtyTwoBit),
          readMapped_cons _ _ (rfl : Encoding.from_u8 2 = some .BigEndian),
          identRemainingLen, readBytes_short hpadlen]
      · simp [readMapped_cons _ _
          (rfl : AddressFormat.from_u8 2 = some .SixtyFourBit),
          readMapped_cons _ _ (rfl : Encoding.from_u8 1 = some .LittleEndian),
          identRemainingLen, readBytes_short hpadlen]
      · simp [readMapped_cons _ _
          (rfl : AddressFormat.from_u8 2 = some .SixtyFourBit),
          readMapped_cons _ _ (rfl : Encoding.from_u8 2 = some .BigEndian),
          identRemainingLen, readBytes_short hpadlen]
    unfold Header.from_io
    rw [hident]
    rfl

/-- C8 witness: at the 7-byte stream with valid magic, class and data
bytes, the theorem's hypotheses hold concretely and its live branch is the
padding-truncation one, which fails with the end-of-stream I/O error. -/
theorem c8_witness :
    (∃ e, Header.from_io endian.Encoding.Any
        [0x7f, 0x45, 0x4c, 0x46, 1, 1, 0] = .error e ∧ e ≠ Error.panicked) ∧
    (([0x7f, 0x45, 0x4c, 0x46, 1, 1, 0] : List Nat).length < 4 →
      Header.from_io endian.Encoding.Any [0x7f, 0x45, 0x4c, 0x46, 1, 1, 0] =
        .error Error.io) ∧
    (([0x7f, 0x45, 0x4c, 0x46, 1, 1, 0] : List Nat) = elfMagicBytes →
      Header.from_io endian.Encoding.Any [0x7f, 0x45, 0x4c, 0x46, 1, 1, 0] =
        .error (.parse "Could not read class type")) ∧
    (∀ c, ([0x7f, 0x45, 0x4c, 0x46, 1, 1, 0] : List Nat) =
        elfMagicBytes ++ [c] → (c = 1 ∨ c = 2) →
      Header.from_io endian.Encoding.Any [0x7f, 0x45, 0x4c, 0x46, 1, 1, 0] =
        .error (.parse "Could not read encoding type")) ∧
    (∀ c d pad,
      ([0x7f, 0x45, 0x4c, 0x46, 1, 1, 0] : List Nat) =
        elfMagicBytes ++ c :: d :: pad →
      (c = 1 ∨ c = 2) → (d = 1 ∨ d = 2) →
      Header.from_io endian.Encoding.Any [0x7f, 0x45, 0x4c, 0x46, 1, 1, 0] =
        .error Error.io) :=
  c8_short_input endian.Encoding.Any [0x7f, 0x45, 0x4c, 0x46, 1, 1, 0]
    (by decide) (by decide)

/-- C9: the `endian::Encoding` argument threaded into the decoders is
irrelevant to their result on every input: `Magic::from_io` ignores it
(its binder is `_`), and `Header::from_io`/`File::from_io` derive the byte
order they actually use solely from the decoded identification data
byte. -/
theorem c9_order_argument_ignored (e1 e2 : endian.Encoding)
    (input : List Nat) :
    Magic.from_io e1 input = Magic.from_io e2 input ∧
    Identification.from_io e1 input = Identification.from_io e2 input ∧
    Header.from_io e1 input = Header.from_io e2 input ∧
    File.from_io e1 input = File.from_io e2 input :=
  ⟨rfl, rfl, rfl, rfl⟩

/-- C10: every `Identification` a successful decode returns has a class in
{ThirtyTwoBit, SixtyFourBit} and a data encoding in {LittleEndian,
BigEndian} — never the `None` variants — so for decoded values the
endianness-derivation panic modelled by `derivedEndian` (shared by
`Header::from_io` and `Header::to_io`) and the `AddressFormat::None` error
arms of `architecture_aware_read`/`architecture_aware_write` are all
unreachable. -/
theorem c10_decoded_ident_never_none (order : endian.Encoding)
    (input : List Nat) (i : Identification) (rest : List Nat)
    (hwf : BytesWF input)
    (hok : Identification.from_io order input = .ok (i, rest)) :
    (i.cls ≠ AddressFormat.None ∧ i.data ≠ Encoding.None) ∧
    derivedEndian i.data ≠ .error Error.panicked ∧
    (∀ (en : endian.Encoding) (src : List Nat),
      architecture_aware_read i en src ≠
        .error (.parse "Could not read version")) ∧
    (∀ (value : Nat) (en : endian.Encoding) (out : List Nat),
      architecture_aware_write i value en out ≠
        .error (.parse "Could not write version")) := by
  obtain ⟨-, hiWF, -⟩ := ident_from_io_ok hwf hok
  have hcls : i.cls ≠ AddressFormat.None := hiWF.2.1
  have hdata : i.data ≠ Encoding.None := hiWF.2.2.1
  refine ⟨⟨hcls, hdata⟩, ?_, ?_, ?_⟩
  · rw [derivedEndian_of_ne hdata]
    intro h
    cases h
  · intro en src
    unfold architecture_aware_read
    cases hc : i.cls with
    | None => exact absurd hc hcls
    | ThirtyTwoBit =>
      intro h
      exact absurd (endian.readUInt_error h) (by decide)
    | SixtyFourBit =>
      intro h
      exact absurd (endian.readUInt_error h) (by decide)
  · intro value en out
    unfold architecture_aware_write
    cases hc : i.cls with
    | None => exact absurd hc hcls
    | ThirtyTwoBit => intro h; cases h
    | SixtyFourBit => intro h; cases h

/-- C10 witness: instantiated at the identification decoded from a
concrete 18-byte stream. -/
theorem c10_witness :
    ((⟨⟨elfMagicBytes⟩, .SixtyFourBit, .LittleEndian,
        [0, 0, 0, 0, 0, 0, 0, 0, 0, 0]⟩ : Identification).cls ≠
          AddressFormat.None ∧
      (⟨⟨elfMagicBytes⟩, .SixtyFourBit, .LittleEndian,
        [0, 0, 0, 0, 0, 0, 0, 0, 0, 0]⟩ : Identification).data ≠
          Encoding.None) ∧
    derivedEndian (⟨⟨elfMagicBytes⟩, .SixtyFourBit, .LittleEndian,
        [0, 0, 0, 0, 0, 0, 0, 0, 0, 0]⟩ : Identification).data ≠
      .error Error.panicked ∧
    (∀ (en : endian.Encoding) (src : List Nat),
      architecture_aware_read
          ⟨⟨elfMagicBytes⟩, .SixtyFourBit, .LittleEndian,
            [0, 0, 0, 0, 0, 0, 0, 0, 0, 0]⟩ en src ≠
        .error (.parse "Could not read version")) ∧
    (∀ (value : Nat) (en : endian.Encoding) (out : List Nat),
      architecture_aware_write
          ⟨⟨elfMagicBytes⟩, .SixtyFourBit, .LittleEndian,
            [0, 0, 0, 0, 0, 0, 0, 0, 0, 0]⟩ value en out ≠
        .error (.parse "Could not write version")) :=
  c10_decoded_ident_never_none endian.Encoding.Any
    [0x7f, 0x45, 0x4c, 0x46, 2, 1, 0, 0, 0, 0, 0, 0, 0, 0, 0, 0, 5, 5]
    ⟨⟨elfMagicBytes⟩, .SixtyFourBit, .LittleEndian,
      [0, 0, 0, 0, 0, 0, 0, 0, 0, 0]⟩ [5, 5] (by decide) (by decide)
